import Mathlib

/-!
# Tiered Answer Evaluation Engine — shallow embedding

Verification of the tiered French writing-answer evaluation engine:
`src/lib/writing-questions.ts` (text normalization, Levenshtein
similarity, fuzzy tiered evaluation, client fallback),
`src/lib/feature-flags.ts` (threshold tables), and the local tiers plus
Claude-fallback boundary of `src/app/api/evaluate-writing/route.ts`.

Modelling conventions:
* JavaScript strings are `List Char`; `str` converts a Lean string
  literal.
* JavaScript numbers are exact rationals (`ℚ`) for similarity scores and
  integers (`ℤ`) for percent scores; `Math.round` is `jsRound`.
* `String.prototype.normalize('NFD')` is modelled by a canonical
  decomposition table covering the Latin letters of the application's
  French repertoire (all other characters decompose to themselves), and
  `toLowerCase` by ASCII lowering plus the same accented repertoire.
* The `\s` class of the regexes is modelled by the common JavaScript
  whitespace characters.
-/

set_option maxRecDepth 100000

namespace WritingEval

/-- JavaScript `\s` for the purposes of `trim`, `\s+` collapsing and the
punctuation-spacing regex: space, tab, LF, VT, FF, CR, NBSP. -/
def isJsWhitespace (c : Char) : Bool :=
  c = ' ' || c = '\t' || c = '\n' || c = '\x0b' || c = '\x0c' || c = '\r' || c = ' '

/-- The French "double punctuation" marks of `normalizePunctuationSpacing`:
`? ! ; :` (the character class `[?!;:]` in `writing-questions.ts`). -/
def isDoublePunctuation (c : Char) : Bool :=
  c = '?' || c = '!' || c = ';' || c = ':'

/-- Combining diacritical marks, the class `[̀-ͯ]` removed by
`normalizeText`. -/
def isCombiningMark (c : Char) : Bool :=
  0x300 ≤ c.toNat && c.toNat ≤ 0x36F

/-- Canonical (NFD) decompositions of the accented Latin characters in the
application's French repertoire; `String.prototype.normalize('NFD')`
restricted to the characters this program processes.  Characters not
listed decompose to themselves. -/
def nfdTable : List (Char × List Char) :=
  [ ('à', ['a', '̀']), ('â', ['a', '̂']), ('ä', ['a', '̈']),
    ('ç', ['c', '̧']),
    ('è', ['e', '̀']), ('é', ['e', '́']), ('ê', ['e', '̂']), ('ë', ['e', '̈']),
    ('î', ['i', '̂']), ('ï', ['i', '̈']),
    ('ô', ['o', '̂']), ('ö', ['o', '̈']),
    ('ù', ['u', '̀']), ('û', ['u', '̂']), ('ü', ['u', '̈']),
    ('ÿ', ['y', '̈']),
    ('À', ['A', '̀']), ('Â', ['A', '̂']), ('Ä', ['A', '̈']),
    ('Ç', ['C', '̧']),
    ('È', ['E', '̀']), ('É', ['E', '́']), ('Ê', ['E', '̂']), ('Ë', ['E', '̈']),
    ('Î', ['I', '̂']), ('Ï', ['I', '̈']),
    ('Ô', ['O', '̂']), ('Ö', ['O', '̈']),
    ('Ù', ['U', '̀']), ('Û', ['U', '̂']), ('Ü', ['U', '̈']),
    ('Ÿ', ['Y', '̈']) ]

/-- NFD decomposition of a single character (see `nfdTable`). -/
def nfdChar (c : Char) : List Char :=
  match nfdTable.find? (fun p => p.1 = c) with
  | some p => p.2
  | none => [c]

/-- Lowercase forms of the uppercase characters in the repertoire:
ASCII `A`–`Z` plus the accented letters (`toLowerCase` restricted to the
characters this program processes). -/
def lowerTable : List (Char × Char) :=
  [ ('A', 'a'), ('B', 'b'), ('C', 'c'), ('D', 'd'), ('E', 'e'), ('F', 'f'),
    ('G', 'g'), ('H', 'h'), ('I', 'i'), ('J', 'j'), ('K', 'k'), ('L', 'l'),
    ('M', 'm'), ('N', 'n'), ('O', 'o'), ('P', 'p'), ('Q', 'q'), ('R', 'r'),
    ('S', 's'), ('T', 't'), ('U', 'u'), ('V', 'v'), ('W', 'w'), ('X', 'x'),
    ('Y', 'y'), ('Z', 'z'),
    ('À', 'à'), ('Â', 'â'), ('Ä', 'ä'), ('Ç', 'ç'),
    ('È', 'è'), ('É', 'é'), ('Ê', 'ê'), ('Ë', 'ë'),
    ('Î', 'î'), ('Ï', 'ï'), ('Ô', 'ô'), ('Ö', 'ö'),
    ('Ù', 'ù'), ('Û', 'û'), ('Ü', 'ü'), ('Ÿ', 'ÿ') ]

/-- `String.prototype.toLowerCase` on one character (see `lowerTable`);
characters outside the repertoire are unchanged. -/
def jsToLower (c : Char) : Char :=
  match lowerTable.find? (fun p => p.1 = c) with
  | some p => p.2
  | none => c

/-- `text.trim()`: remove leading and trailing whitespace. -/
def trimList (l : List Char) : List Char :=
  ((l.dropWhile isJsWhitespace).reverse.dropWhile isJsWhitespace).reverse

/-- Auxiliary for `collapseWs`: the flag records whether the previous
input character was whitespace (i.e. we are inside a run that has already
emitted its single `' '`). -/
def collapseWsAux : Bool → List Char → List Char
  | _, [] => []
  | prevWs, c :: rest =>
    if isJsWhitespace c then
      if prevWs then collapseWsAux true rest
      else ' ' :: collapseWsAux true rest
    else c :: collapseWsAux false rest

/-- `text.replace(/\s+/g, ' ')`: each maximal whitespace run becomes a
single space. -/
def collapseWs (l : List Char) : List Char :=
  collapseWsAux false l

/-- Auxiliary for `normalizePunctuationSpacing`, working on the reversed
string: when the flag is set, the previously seen character (i.e. the
following character of the original string, skipping already-dropped
whitespace) is a double-punctuation mark, so whitespace is dropped. -/
def npsRevAux : Bool → List Char → List Char
  | _, [] => []
  | afterPunct, c :: rest =>
    if isDoublePunctuation c then c :: npsRevAux true rest
    else if isJsWhitespace c then
      if afterPunct then npsRevAux true rest
      else c :: npsRevAux false rest
    else c :: npsRevAux false rest

/-- `normalizePunctuationSpacing` (`writing-questions.ts`):
`text.replace(/\s+([?!;:])/g, '$1')` — remove a whitespace run
immediately preceding `? ! ; :`. -/
def normalizePunctuationSpacing (l : List Char) : List Char :=
  (npsRevAux false l.reverse).reverse

/-- The character-wise phase of `normalizeText`: NFD-decompose, strip
combining marks, lowercase. -/
def charNormalize (l : List Char) : List Char :=
  ((l.flatMap nfdChar).filter (fun c => !isCombiningMark c)).map jsToLower

/-- `normalizeText` (`writing-questions.ts`, also duplicated verbatim in
`route.ts`): NFD-decompose, strip combining marks, lowercase, trim, and
collapse whitespace runs — in the source's order. -/
def normalizeText (l : List Char) : List Char :=
  collapseWs (trimList (charNormalize l))

/-- Convenience: a Lean string literal as a JavaScript string value. -/
def str (s : String) : List Char := s.toList

/-- `levenshteinDistance` (`writing-questions.ts`): the source fills the
`(str2.length+1) × (str1.length+1)` dynamic-programming matrix of the
classic unit-cost edit-distance recurrence (insertion, deletion and
substitution cost 1; equal characters cost 0) and returns the final cell.
We embed it as Mathlib's `levenshtein` with the unit cost structure,
whose defining equations (`levenshtein_cons_cons` etc.) are exactly that
recurrence.  (The source's shortcut of taking the diagonal directly when
the characters are equal agrees with the full minimum, since the
diagonal never exceeds either neighbour by more than one.) -/
def levenshteinDistance (str1 str2 : List Char) : ℕ :=
  levenshtein Levenshtein.defaultCost str1 str2

/-- `Math.round` on a (non-negative, in all uses here) number: round half
away from zero, i.e. `⌊x + 1/2⌋`. -/
def jsRound (q : ℚ) : ℤ := ⌊q + 1 / 2⌋

/-- `calculateSimilarity` (`writing-questions.ts`): normalized-Levenshtein
similarity of the two strings after `normalizeText` and
`normalizePunctuationSpacing`; `1` when both normal forms are empty. -/
def calculateSimilarity (str1 str2 : List Char) : ℚ :=
  let normalized1 := normalizePunctuationSpacing (normalizeText str1)
  let normalized2 := normalizePunctuationSpacing (normalizeText str2)
  let maxLength := max normalized1.length normalized2.length
  if maxLength = 0 then 1
  else 1 - (levenshteinDistance normalized1 normalized2 : ℚ) / (maxLength : ℚ)

/-- `hasCorrectAccents` (`writing-questions.ts`): equality after trim,
lowercase, whitespace collapse and punctuation-spacing normalization,
*keeping* diacritics. -/
def hasCorrectAccents (userAnswer correctAnswer : List Char) : Bool :=
  let normalize := fun (t : List Char) =>
    normalizePunctuationSpacing (collapseWs ((trimList t).map jsToLower))
  decide (normalize userAnswer = normalize correctAnswer)

/-- Difficulty levels (`'beginner' | 'intermediate' | 'advanced'`). -/
inductive Difficulty where
  | beginner
  | intermediate
  | advanced
deriving DecidableEq, Repr

/-- `FUZZY_LOGIC_THRESHOLDS` (`feature-flags.ts`): minimum similarity
percent required to trust a local fuzzy decision instead of deferring. -/
structure FuzzyLogicThresholds where
  beginner : ℕ
  intermediate : ℕ
  advanced : ℕ
deriving DecidableEq, Repr

/-- The module-level constant table of `feature-flags.ts`. -/
def FUZZY_LOGIC_THRESHOLDS : FuzzyLogicThresholds :=
  { beginner := 70, intermediate := 85, advanced := 95 }

/-- `getFuzzyLogicThreshold` (`feature-flags.ts`). (The source takes the
difficulty as a string and falls back to `intermediate` for unknown
values; the claims only concern the three listed difficulties.) -/
def getFuzzyLogicThreshold (difficulty : Difficulty) : ℕ :=
  match difficulty with
  | .beginner => FUZZY_LOGIC_THRESHOLDS.beginner
  | .intermediate => FUZZY_LOGIC_THRESHOLDS.intermediate
  | .advanced => FUZZY_LOGIC_THRESHOLDS.advanced

/-- `CORRECTNESS_THRESHOLDS` (`feature-flags.ts`): similarity-percent
bands deciding correctness once fuzzy confidence is met. -/
structure CorrectnessThresholds where
  MINOR_TYPO : ℤ
  BEGINNER_PASS : ℤ
deriving DecidableEq, Repr

/-- The module-level constant table of `feature-flags.ts`. -/
def CORRECTNESS_THRESHOLDS : CorrectnessThresholds :=
  { MINOR_TYPO := 95, BEGINNER_PASS := 85 }

/-- The `corrections` object of an `EvaluationResult` (`route.ts`). -/
structure Corrections where
  grammar : Option (List (List Char)) := none
  spelling : Option (List (List Char)) := none
  accents : Option (List (List Char)) := none
  suggestions : Option (List (List Char)) := none
deriving DecidableEq, Repr

/-- The diagnostic `_matchInfo` attached by `fuzzyEvaluateAnswer`. -/
structure MatchInfo where
  matchedAgainst : List Char
  matchedVariationIndex : Option ℕ := none
  matchedSimilarity : ℤ
  evaluationReason : List Char
  correctnessBand : Option (List Char) := none
deriving DecidableEq, Repr

/-- `EvaluationResult` (`route.ts`).  The optional superuser `metadata`
block is diagnostics-only (it is attached after the grading decision and
never influences it) and is not modelled. -/
structure EvaluationResult where
  isCorrect : Bool
  score : ℤ
  hasCorrectAccents : Bool
  feedback : List Char
  corrections : Corrections
  correctedAnswer : Option (List Char) := none
  matchInfo : Option MatchInfo := none
deriving DecidableEq, Repr

/-- The result returned by `fuzzyEvaluateAnswer` when the user answer and
the primary `correctAnswer` are normalized-equal (tier 2). -/
def primaryExactResult (userAnswer correctAnswer : List Char) : EvaluationResult :=
  let hasAccents := hasCorrectAccents userAnswer correctAnswer
  { isCorrect := true
    score := if hasAccents then 100 else 98
    hasCorrectAccents := hasAccents
    feedback := if hasAccents then
        str "Parfait ! Réponse correcte avec les accents appropriés."
      else
        str "Correct ! Attention aux accents pour être parfait."
    corrections := if hasAccents then {} else
      { accents := some [str "La réponse correcte est: \x22" ++ correctAnswer ++ str "\x22"] }
    matchInfo := some
      { matchedAgainst := str "primary_answer"
        matchedSimilarity := 100
        evaluationReason := str "Exact match against primary answer (after normalization)" } }

/-- The result returned by `fuzzyEvaluateAnswer` when variation number
`i` (0-based) is normalized-equal to the user answer. -/
def variationExactResult (userAnswer variation : List Char) (i : ℕ) : EvaluationResult :=
  let hasAccents := hasCorrectAccents userAnswer variation
  { isCorrect := true
    score := if hasAccents then 98 else 96
    hasCorrectAccents := hasAccents
    feedback := if hasAccents then
        str "Très bien ! C\x27est une variation acceptable."
      else
        str "Bien ! Attention aux accents. Variation acceptable."
    corrections := if hasAccents then {} else
      { accents := some [str "Une variation correcte est: \x22" ++ variation ++ str "\x22"] }
    matchInfo := some
      { matchedAgainst := str "acceptable_variation"
        matchedVariationIndex := some i
        matchedSimilarity := 100
        evaluationReason := str "Exact match against acceptable variation #" ++
          str (Nat.repr (i + 1)) } }

/-- The result returned by `fuzzyEvaluateAnswer` when variation number
`i` (0-based) reaches similarity ≥ 0.95 with the user answer. -/
def variationSimilarityResult (userAnswer variation : List Char) (i : ℕ) : EvaluationResult :=
  let variationSimilarity := calculateSimilarity userAnswer variation
  let hasAccents := hasCorrectAccents userAnswer variation
  let pct := jsRound (variationSimilarity * 100)
  { isCorrect := true
    score := pct - 2
    hasCorrectAccents := hasAccents
    feedback := str "Presque parfait ! Petite erreur dans une variation acceptable."
    corrections :=
      { suggestions := some [str "Une variation correcte est: \x22" ++ variation ++ str "\x22"] }
    correctedAnswer := some variation
    matchInfo := some
      { matchedAgainst := str "acceptable_variation"
        matchedVariationIndex := some i
        matchedSimilarity := pct
        evaluationReason := str "Similarity match (" ++ str (Int.repr pct) ++
          str "%) against acceptable variation #" ++ str (Nat.repr (i + 1)) } }

/-- The result returned by the final fuzzy tier of `fuzzyEvaluateAnswer`
once confidence is met: correctness decided by the rounded similarity
percent against `CORRECTNESS_THRESHOLDS`. -/
def fuzzyBandResult (userAnswer correctAnswer : List Char) (difficulty : Difficulty) :
    EvaluationResult :=
  let similarity := calculateSimilarity userAnswer correctAnswer
  let similarityPercent := jsRound (similarity * 100)
  let isCorrect :=
    if CORRECTNESS_THRESHOLDS.MINOR_TYPO ≤ similarityPercent then true
    else if CORRECTNESS_THRESHOLDS.BEGINNER_PASS ≤ similarityPercent then
      decide (difficulty = Difficulty.beginner)
    else false
  let feedback :=
    if CORRECTNESS_THRESHOLDS.MINOR_TYPO ≤ similarityPercent then
      str "Presque parfait ! Attention aux petites erreurs."
    else if CORRECTNESS_THRESHOLDS.BEGINNER_PASS ≤ similarityPercent then
      (if isCorrect then str "Bon effort ! Quelques petites erreurs à corriger."
       else str "Pas mal, mais il y a des erreurs à corriger.")
    else str "Vous êtes sur la bonne voie, mais il y a plusieurs erreurs."
  let correctnessBand :=
    if CORRECTNESS_THRESHOLDS.MINOR_TYPO ≤ similarityPercent then
      str "95%+ (minor typo)"
    else if CORRECTNESS_THRESHOLDS.BEGINNER_PASS ≤ similarityPercent then
      str "85-94% (beginner pass only)"
    else str "below 85% (incorrect)"
  { isCorrect := isCorrect
    score := similarityPercent
    hasCorrectAccents := hasCorrectAccents userAnswer correctAnswer
    feedback := feedback
    corrections :=
      { suggestions := some [str "La réponse correcte est: \x22" ++ correctAnswer ++ str "\x22"] }
    correctedAnswer := some correctAnswer
    matchInfo := some
      { matchedAgainst := str "primary_answer"
        matchedSimilarity := similarityPercent
        evaluationReason := str "Fuzzy match against primary answer (" ++
          str (Int.repr similarityPercent) ++ str "% similarity)"
        correctnessBand := some correctnessBand } }

/-- The `for` loop of `fuzzyEvaluateAnswer` over `acceptableVariations`
(tier 3): for each variation, in list order, first an exact normalized
comparison, then a similarity comparison against 0.95; the first
qualifying variation returns.  `i` is the index of the first remaining
variation. -/
def checkVariations (userAnswer normalizedUser : List Char) :
    ℕ → List (List Char) → Option EvaluationResult
  | _, [] => none
  | i, variation :: rest =>
    if normalizePunctuationSpacing (normalizeText variation) = normalizedUser then
      some (variationExactResult userAnswer variation i)
    else if (95 : ℚ) / 100 ≤ calculateSimilarity userAnswer variation then
      some (variationSimilarityResult userAnswer variation i)
    else
      checkVariations userAnswer normalizedUser (i + 1) rest

/-- `fuzzyEvaluateAnswer` (`writing-questions.ts`): the local tiered
evaluator.  Returns `none` ("defer") when the caller must fall back to
the semantic API.  The source's opening guard `if (!correctAnswer)
return null` tests JavaScript truthiness, so it defers both for a null
`correctAnswer` (`none`) and for the empty string (`some []`). -/
def fuzzyEvaluateAnswer (userAnswer : List Char) (correctAnswer : Option (List Char))
    (acceptableVariations : List (List Char)) (difficulty : Difficulty)
    (questionType : List Char) : Option EvaluationResult :=
  match correctAnswer with
  | none => none
  | some correct =>
    if correct = [] then none
    else
      let normalizedUser := normalizePunctuationSpacing (normalizeText userAnswer)
      let normalizedCorrect := normalizePunctuationSpacing (normalizeText correct)
      if normalizedUser = normalizedCorrect then
        some (primaryExactResult userAnswer correct)
      else
        match checkVariations userAnswer normalizedUser 0 acceptableVariations with
        | some result => some result
        | none =>
          let similarity := calculateSimilarity userAnswer correct
          let threshold := (getFuzzyLogicThreshold difficulty : ℚ) / 100
          if similarity < threshold then none
          else some (fuzzyBandResult userAnswer correct difficulty)

/-- The tier-1 (empty-check) result of the `POST` handler (`route.ts`):
answers of trimmed length < 2 terminate immediately. -/
def emptyCheckResult : EvaluationResult :=
  { isCorrect := false
    score := 0
    hasCorrectAccents := false
    feedback := str "Réponse trop courte. Veuillez fournir une réponse complète."
    corrections :=
      { suggestions := some [str "Essayez d\x27écrire une réponse complète en français."] } }

/-- The tier-2 (exact-match) result of the `POST` handler (`route.ts`):
note that its inline accent check (`route.ts` line 113) compares
`trim().toLowerCase()` only — without whitespace collapsing or
punctuation-spacing normalization, unlike the `hasCorrectAccents`
function of `writing-questions.ts`. -/
def routeExactResult (userAnswer correctAnswer : List Char) : EvaluationResult :=
  let hasAccents :=
    decide ((trimList userAnswer).map jsToLower = (trimList correctAnswer).map jsToLower)
  { isCorrect := true
    score := if hasAccents then 100 else 98
    hasCorrectAccents := hasAccents
    feedback := if hasAccents then
        str "Parfait ! Réponse correcte avec les accents appropriés."
      else
        str "Correct ! Attention aux accents pour être parfait."
    corrections := if hasAccents then {} else
      { accents := some [str "La réponse correcte est: \x22" ++ correctAnswer ++ str "\x22"] } }

/-- The local tiers (1–3) of the `POST` handler of `route.ts`: empty
check, the route's own exact-match tier, then `fuzzyEvaluateAnswer`.
Returns `none` exactly when the handler proceeds to the Claude tier
(tier 4).  The tier-2 condition `correctAnswer && normalizedUser ===
normalizedCorrect` and the tier-3 condition `... && correctAnswer` test
JavaScript truthiness, so both tiers are skipped for a null (`none`)
*or empty* (`some []`) `correctAnswer`.  (The `FEATURES` flag consulted
in the tier-3 condition is not set, so the fuzzy tier is enabled.)
The handler's earlier `!question || !userAnswer` guard responds with an
HTTP 400 error and produces no `EvaluationResult` at all; `question` is
not an input of the evaluation tiers, and this model covers the
requests that pass that guard (in particular `userAnswer ≠ []`). -/
def postLocalEvaluate (userAnswer : List Char) (correctAnswer : Option (List Char))
    (acceptableVariations : List (List Char)) (difficulty : Difficulty)
    (questionType : List Char) : Option EvaluationResult :=
  if (trimList userAnswer).length < 2 then some emptyCheckResult
  else
    match correctAnswer with
    | none => none
    | some correct =>
      if correct = [] then none
      else if normalizeText userAnswer = normalizeText correct then
        some (routeExactResult userAnswer correct)
      else
        fuzzyEvaluateAnswer userAnswer (some correct) acceptableVariations difficulty
          questionType

/-- The JSON object the Claude prompt asks for
(`ClaudeEvaluationResponse` in `route.ts`). -/
structure ClaudeEvaluationResponse where
  isCorrect : Bool
  score : ℤ
  hasCorrectAccents : Bool
  feedback : List Char
  corrections : Corrections
  correctedAnswer : Option (List Char) := none
  confidenceScore : Option ℤ := none
deriving DecidableEq, Repr

/-- The destructuring `const (confidenceScore, ...evaluationResult) =
claudeResponse` in `evaluateWithClaude`. -/
def claudeResponseToResult (r : ClaudeEvaluationResponse) : EvaluationResult :=
  { isCorrect := r.isCorrect
    score := r.score
    hasCorrectAccents := r.hasCorrectAccents
    feedback := r.feedback
    corrections := r.corrections
    correctedAnswer := r.correctedAnswer }

/-- The result built in the `catch` block of `evaluateWithClaude`
(`route.ts` lines 328–342), returned for every failure of the Claude
call: transport error, timeout, non-text content, or unparseable JSON. -/
def claudeFailureEvaluation : EvaluationResult :=
  { isCorrect := false
    score := 50
    hasCorrectAccents := false
    feedback :=
      str "Unable to evaluate automatically. Please try again or ask your teacher for feedback."
    corrections := {} }

/-- `evaluateWithClaude` (`route.ts`): the semantic-fallback boundary.
`response` is `some r` when the API round trip succeeded and its body
parsed as `r`; `none` models every failure mode (transport failure,
timeout, unexpected content type, JSON parse error), all of which reach
the single `catch` block. -/
def evaluateWithClaude (response : Option ClaudeEvaluationResponse) :
    EvaluationResult × Option ℤ :=
  match response with
  | some r => (claudeResponseToResult r, r.confidenceScore)
  | none => (claudeFailureEvaluation, none)

/-- The result built in the `catch` block of `evaluateWritingAnswer`
(`writing-questions.ts` lines 713–724), returned when the client's
request to `/api/evaluate-writing` fails. -/
def clientFailureEvaluation : EvaluationResult :=
  { isCorrect := false
    score := 0
    hasCorrectAccents := false
    feedback := str "Unable to evaluate. Please try again."
    corrections := {} }

/-- `evaluateWritingAnswer` (`writing-questions.ts`): the client-side
wrapper around the evaluation API.  `apiResponse` is `some r` when the
round trip to `/api/evaluate-writing` succeeded with an OK status and
body `r`; `none` models a network error or a non-OK status, both routed
to the `catch` block. -/
def evaluateWritingAnswer (apiResponse : Option EvaluationResult) : EvaluationResult :=
  match apiResponse with
  | some result => result
  | none => clientFailureEvaluation

/-! ## Properties of the edit distance -/

theorem levenshteinDistance_nil_left (ys : List Char) :
    levenshteinDistance [] ys = ys.length := by
  induction ys with
  | nil => rfl
  | cons y ys ih =>
    simp only [levenshteinDistance] at *
    rw [levenshtein_nil_cons, ih]
    simp only [Levenshtein.defaultCost_insert, List.length_cons]
    omega

theorem levenshteinDistance_nil_right (xs : List Char) :
    levenshteinDistance xs [] = xs.length := by
  induction xs with
  | nil => rfl
  | cons x xs ih =>
    simp only [levenshteinDistance] at *
    rw [levenshtein_cons_nil, ih]
    simp only [Levenshtein.defaultCost_delete, List.length_cons]
    omega

theorem levenshteinDistance_self (l : List Char) : levenshteinDistance l l = 0 := by
  induction l with
  | nil => rfl
  | cons x xs ih =>
    simp only [levenshteinDistance] at *
    rw [levenshtein_cons_cons]
    have hsub : Levenshtein.defaultCost.substitute x x = 0 := by
      simp [Levenshtein.defaultCost]
    simp only [Levenshtein.defaultCost_delete, Levenshtein.defaultCost_insert, hsub]
    omega

theorem levenshteinDistance_comm (xs ys : List Char) :
    levenshteinDistance xs ys = levenshteinDistance ys xs := by
  induction xs generalizing ys with
  | nil =>
    rw [levenshteinDistance_nil_left, levenshteinDistance_nil_right]
  | cons x xs ihx =>
    induction ys with
    | nil => rw [levenshteinDistance_nil_left, levenshteinDistance_nil_right]
    | cons y ys ihy =>
      simp only [levenshteinDistance] at *
      rw [levenshtein_cons_cons, levenshtein_cons_cons, ihx (y :: ys), ihx ys, ihy]
      simp only [Levenshtein.defaultCost_delete, Levenshtein.defaultCost_insert,
        Levenshtein.defaultCost_substitute]
      by_cases hxy : x = y
      · subst hxy
        simp only [if_pos rfl]
        omega
      · rw [if_neg hxy, if_neg (fun h => hxy h.symm)]
        omega

theorem levenshteinDistance_le_max (xs ys : List Char) :
    levenshteinDistance xs ys ≤ max xs.length ys.length := by
  induction xs generalizing ys with
  | nil =>
    rw [levenshteinDistance_nil_left]
    omega
  | cons x xs ih =>
    cases ys with
    | nil =>
      rw [levenshteinDistance_nil_right]
      omega
    | cons y ys =>
      have h := ih ys
      simp only [levenshteinDistance] at *
      rw [levenshtein_cons_cons]
      simp only [Levenshtein.defaultCost_delete, Levenshtein.defaultCost_insert,
        Levenshtein.defaultCost_substitute, List.length_cons]
      by_cases hxy : x = y
      · rw [if_pos hxy]; omega
      · rw [if_neg hxy]; omega

/-! ## Properties of `calculateSimilarity` -/

theorem calculateSimilarity_nonneg (a b : List Char) : 0 ≤ calculateSimilarity a b := by
  simp only [calculateSimilarity]
  set n1 := normalizePunctuationSpacing (normalizeText a)
  set n2 := normalizePunctuationSpacing (normalizeText b)
  by_cases h : max n1.length n2.length = 0
  · simp [h]
  · rw [if_neg h]
    have hpos : (0 : ℚ) < (max n1.length n2.length : ℕ) := by
      exact_mod_cast Nat.pos_of_ne_zero h
    have hle : (levenshteinDistance n1 n2 : ℚ) ≤ (max n1.length n2.length : ℕ) := by
      exact_mod_cast levenshteinDistance_le_max n1 n2
    have := div_le_one_of_le₀ hle (le_of_lt hpos)
    linarith

theorem calculateSimilarity_le_one (a b : List Char) : calculateSimilarity a b ≤ 1 := by
  simp only [calculateSimilarity]
  set n1 := normalizePunctuationSpacing (normalizeText a)
  set n2 := normalizePunctuationSpacing (normalizeText b)
  by_cases h : max n1.length n2.length = 0
  · simp [h]
  · rw [if_neg h]
    have hpos : (0 : ℚ) < (max n1.length n2.length : ℕ) := by
      exact_mod_cast Nat.pos_of_ne_zero h
    have hd : (0 : ℚ) ≤ (levenshteinDistance n1 n2 : ℚ) := by positivity
    have := div_nonneg hd (le_of_lt hpos)
    linarith

theorem calculateSimilarity_self (a : List Char) : calculateSimilarity a a = 1 := by
  simp only [calculateSimilarity]
  set n1 := normalizePunctuationSpacing (normalizeText a)
  by_cases h : max n1.length n1.length = 0
  · rw [if_pos h]
  · rw [if_neg h, levenshteinDistance_self]
    simp

theorem calculateSimilarity_comm (a b : List Char) :
    calculateSimilarity a b = calculateSimilarity b a := by
  simp only [calculateSimilarity]
  rw [levenshteinDistance_comm, Nat.max_comm]

theorem calculateSimilarity_right_empty (u c : List Char)
    (hc : normalizePunctuationSpacing (normalizeText c) = [])
    (hu : normalizePunctuationSpacing (normalizeText u) ≠ []) :
    calculateSimilarity u c = 0 := by
  simp only [calculateSimilarity]
  rw [hc]
  have hlen : (normalizePunctuationSpacing (normalizeText u)).length ≠ 0 :=
    fun h => hu (List.length_eq_zero.mp h)
  simp only [List.length_nil, Nat.max_zero]
  rw [if_neg hlen, levenshteinDistance_nil_right]
  rw [div_self (by exact_mod_cast hlen)]
  ring

theorem getFuzzyLogicThreshold_pos (d : Difficulty) :
    0 < (getFuzzyLogicThreshold d : ℚ) / 100 := by
  cases d <;> norm_num [getFuzzyLogicThreshold, FUZZY_LOGIC_THRESHOLDS]

/-- A variation qualifies (terminates the tier-3 loop of
`fuzzyEvaluateAnswer`) when it is normalized-equal to the user answer or
reaches similarity ≥ 0.95 with it. -/
def variationQualifies (userAnswer v : List Char) : Prop :=
  normalizePunctuationSpacing (normalizeText v) =
      normalizePunctuationSpacing (normalizeText userAnswer) ∨
  (95 : ℚ) / 100 ≤ calculateSimilarity userAnswer v

instance (userAnswer v : List Char) : Decidable (variationQualifies userAnswer v) := by
  unfold variationQualifies
  infer_instance

/-- The result the tier-3 loop produces for the variation it stops at:
the exact-match branch takes precedence over the similarity branch. -/
def firstMatchResult (userAnswer v : List Char) (i : ℕ) : EvaluationResult :=
  if normalizePunctuationSpacing (normalizeText v) =
      normalizePunctuationSpacing (normalizeText userAnswer) then
    variationExactResult userAnswer v i
  else
    variationSimilarityResult userAnswer v i

/-- A character that every stage of `charNormalize` fixes. -/
def GoodChar (c : Char) : Prop :=
  nfdChar c = [c] ∧ jsToLower c = c ∧ isCombiningMark c = false

instance : DecidablePred GoodChar := fun c => by
  unfold GoodChar
  infer_instance

/-- No two adjacent whitespace characters. -/
def noAdjacentWs : List Char → Prop
  | [] => True
  | [_] => True
  | c1 :: c2 :: rest =>
    (isJsWhitespace c1 = false ∨ isJsWhitespace c2 = false) ∧ noAdjacentWs (c2 :: rest)

/-! ## Projection lemmas for the result builders -/

theorem primaryExactResult_isCorrect (u c : List Char) :
    (primaryExactResult u c).isCorrect = true := rfl

theorem primaryExactResult_score (u c : List Char) :
    (primaryExactResult u c).score = if hasCorrectAccents u c then 100 else 98 := rfl

theorem primaryExactResult_hasCorrectAccents (u c : List Char) :
    (primaryExactResult u c).hasCorrectAccents = hasCorrectAccents u c := rfl

theorem variationExactResult_isCorrect (u v : List Char) (i : ℕ) :
    (variationExactResult u v i).isCorrect = true := rfl

theorem variationExactResult_score (u v : List Char) (i : ℕ) :
    (variationExactResult u v i).score = if hasCorrectAccents u v then 98 else 96 := rfl

theorem variationSimilarityResult_isCorrect (u v : List Char) (i : ℕ) :
    (variationSimilarityResult u v i).isCorrect = true := rfl

theorem variationSimilarityResult_score (u v : List Char) (i : ℕ) :
    (variationSimilarityResult u v i).score = jsRound (calculateSimilarity u v * 100) - 2 := rfl

theorem variationSimilarityResult_correctedAnswer (u v : List Char) (i : ℕ) :
    (variationSimilarityResult u v i).correctedAnswer = some v := rfl

theorem fuzzyBandResult_score (u c : List Char) (d : Difficulty) :
    (fuzzyBandResult u c d).score = jsRound (calculateSimilarity u c * 100) := rfl

theorem fuzzyBandResult_isCorrect (u c : List Char) (d : Difficulty) :
    (fuzzyBandResult u c d).isCorrect =
      (if (95 : ℤ) ≤ jsRound (calculateSimilarity u c * 100) then true
       else if (85 : ℤ) ≤ jsRound (calculateSimilarity u c * 100) then
         decide (d = Difficulty.beginner)
       else false) := rfl

theorem fuzzyBandResult_correctedAnswer (u c : List Char) (d : Difficulty) :
    (fuzzyBandResult u c d).correctedAnswer = some c := rfl

theorem fuzzyBandResult_hasCorrectAccents (u c : List Char) (d : Difficulty) :
    (fuzzyBandResult u c d).hasCorrectAccents = hasCorrectAccents u c := rfl

/-! ## Rounding helpers -/

theorem le_jsRound {n : ℤ} {q : ℚ} (h : (n : ℚ) ≤ q) : n ≤ jsRound q := by
  apply Int.le_floor.mpr
  linarith

theorem jsRound_le {n : ℤ} {q : ℚ} (h : q < (n : ℚ) + 1 / 2) : jsRound q ≤ n := by
  have : jsRound q < n + 1 := by
    apply Int.floor_lt.mpr
    push_cast
    linarith
  omega

theorem jsRound_sim_le_100 {q : ℚ} (h : q ≤ 1) : jsRound (q * 100) ≤ 100 := by
  apply jsRound_le
  push_cast
  linarith

theorem le_jsRound_sim {n : ℤ} {q : ℚ} (h : (n : ℚ) / 100 ≤ q) : n ≤ jsRound (q * 100) := by
  apply le_jsRound
  linarith

/-! ## The variation loop -/

theorem checkVariations_first_qualifying (userAnswer : List Char) (vars : List (List Char))
    (k i : ℕ) (hi : i < vars.length)
    (hbefore : ∀ j, j < i → ¬ variationQualifies userAnswer (vars.getD j []))
    (hq : variationQualifies userAnswer (vars.getD i [])) :
    checkVariations userAnswer (normalizePunctuationSpacing (normalizeText userAnswer)) k vars =
      some (firstMatchResult userAnswer (vars.getD i []) (k + i)) := by
  induction vars generalizing k i with
  | nil => simp at hi
  | cons v rest ih =>
    cases i with
    | zero =>
      simp only [List.getD_cons_zero] at hq ⊢
      unfold checkVariations firstMatchResult
      by_cases h1 : normalizePunctuationSpacing (normalizeText v) =
          normalizePunctuationSpacing (normalizeText userAnswer)
      · rw [if_pos h1, if_pos h1, Nat.add_zero]
      · have h2 : (95 : ℚ) / 100 ≤ calculateSimilarity userAnswer v := hq.resolve_left h1
        rw [if_neg h1, if_pos h2, if_neg h1, Nat.add_zero]
    | succ j =>
      have hb0 : ¬ variationQualifies userAnswer v := by
        have := hbefore 0 (Nat.succ_pos j)
        simpa using this
      unfold variationQualifies at hb0
      push_neg at hb0
      unfold checkVariations
      rw [if_neg hb0.1, if_neg (not_le.mpr hb0.2)]
      have hlen : j < rest.length := by simpa using hi
      have hbefore' : ∀ j', j' < j → ¬ variationQualifies userAnswer (rest.getD j' []) := by
        intro j' hj'
        have := hbefore (j' + 1) (by omega)
        simpa using this
      have hq' : variationQualifies userAnswer (rest.getD j []) := by simpa using hq
      have := ih (k + 1) j hlen hbefore' hq'
      rw [this]
      have hk : k + 1 + j = k + (j + 1) := by omega
      rw [hk]
      simp

/-- Score invariants of the tier-3 loop: any result it returns scores
between 93 and 98, is marked correct, and (in the similarity branch)
carries the matched variation as `correctedAnswer`. -/
theorem checkVariations_score_invariant (userAnswer nU : List Char) (k : ℕ)
    (vars : List (List Char)) (r : EvaluationResult)
    (h : checkVariations userAnswer nU k vars = some r) :
    70 ≤ r.score ∧ r.score ≤ 100 ∧ (r.isCorrect = true → 85 ≤ r.score) := by
  induction vars generalizing k with
  | nil => simp [checkVariations] at h
  | cons v rest ih =>
    unfold checkVariations at h
    by_cases h1 : normalizePunctuationSpacing (normalizeText v) = nU
    · rw [if_pos h1] at h
      have hr : r = variationExactResult userAnswer v k := by
        injection h with h
        exact h.symm
      subst hr
      rw [variationExactResult_score, variationExactResult_isCorrect]
      by_cases ha : hasCorrectAccents userAnswer v
      · rw [if_pos ha]
        exact ⟨by norm_num, by norm_num, fun _ => by norm_num⟩
      · rw [if_neg ha]
        exact ⟨by norm_num, by norm_num, fun _ => by norm_num⟩
    · rw [if_neg h1] at h
      by_cases h2 : (95 : ℚ) / 100 ≤ calculateSimilarity userAnswer v
      · rw [if_pos h2] at h
        have hr : r = variationSimilarityResult userAnswer v k := by
          injection h with h
          exact h.symm
        subst hr
        have hlo : (95 : ℤ) ≤ jsRound (calculateSimilarity userAnswer v * 100) :=
          le_jsRound_sim (by push_cast; linarith)
        have hhi : jsRound (calculateSimilarity userAnswer v * 100) ≤ 100 :=
          jsRound_sim_le_100 (calculateSimilarity_le_one userAnswer v)
        rw [variationSimilarityResult_score, variationSimilarityResult_isCorrect]
        exact ⟨by omega, by omega, fun _ => by omega⟩
      · rw [if_neg h2] at h
        exact ih (k + 1) h

/-! ## Idempotence of `normalizeText` -/

theorem nfdChar_of_find?_none {c : Char}
    (h : nfdTable.find? (fun p => p.1 = c) = none) : nfdChar c = [c] := by
  unfold nfdChar
  rw [h]

theorem jsToLower_of_find?_none {c : Char}
    (h : lowerTable.find? (fun p => p.1 = c) = none) : jsToLower c = c := by
  unfold jsToLower
  rw [h]

/-- Every character produced by the character-wise normalization phase —
the lowercase image of a non-combining character of an NFD expansion —
is fixed by all of its stages. -/
theorem goodChar_of_mem_nfd (c d : Char) (hd : d ∈ nfdChar c)
    (hmark : isCombiningMark d = false) : GoodChar (jsToLower d) := by
  unfold nfdChar at hd
  cases hfind : nfdTable.find? (fun p => p.1 = c) with
  | some p =>
    rw [hfind] at hd
    have hp : p ∈ nfdTable := List.mem_of_find?_eq_some hfind
    have htab : ∀ q ∈ nfdTable, ∀ e ∈ q.2,
        isCombiningMark e = false → GoodChar (jsToLower e) := by decide
    exact htab p hp d hd hmark
  | none =>
    rw [hfind] at hd
    have hdc : d = c := by simpa using hd
    subst hdc
    unfold jsToLower
    cases hlow : lowerTable.find? (fun p => p.1 = d) with
    | some q =>
      have hq : q ∈ lowerTable := List.mem_of_find?_eq_some hlow
      have hqc : q.1 = d := by
        have := List.find?_some hlow
        simpa using this
      have hlowtab : ∀ r ∈ lowerTable,
          nfdTable.find? (fun p => p.1 = r.1) = none → GoodChar r.2 := by decide
      exact hlowtab q hq (by rw [hqc]; exact hfind)
    | none =>
      refine ⟨nfdChar_of_find?_none hfind, jsToLower_of_find?_none hlow, hmark⟩

theorem charNormalize_fixed (l : List Char) (h : ∀ c ∈ l, GoodChar c) :
    charNormalize l = l := by
  induction l with
  | nil => rfl
  | cons c rest ih =>
    have hc := h c (by simp)
    have hrest := ih (fun d hd => h d (by simp [hd]))
    unfold charNormalize at hrest ⊢
    rw [List.flatMap_cons, hc.1, List.singleton_append, List.filter_cons,
      if_pos (by simp [hc.2.2]), List.map_cons, hc.2.1, hrest]

theorem goodChar_of_mem_charNormalize (l : List Char) (c : Char)
    (hc : c ∈ charNormalize l) : GoodChar c := by
  unfold charNormalize at hc
  simp only [List.mem_map, List.mem_filter, List.mem_flatMap] at hc
  obtain ⟨d, ⟨⟨a, _, hd⟩, hmark⟩, rfl⟩ := hc
  exact goodChar_of_mem_nfd a d hd (by simpa using hmark)

/-- Characters of a collapsed string: either the emitted `' '` of a run,
or a non-whitespace character of the input. -/
theorem mem_collapseWsAux {l : List Char} {b : Bool} {c : Char}
    (h : c ∈ collapseWsAux b l) :
    c = ' ' ∨ (c ∈ l ∧ isJsWhitespace c = false) := by
  induction l generalizing b with
  | nil => simp [collapseWsAux] at h
  | cons a rest ih =>
    unfold collapseWsAux at h
    by_cases hw : isJsWhitespace a = true
    · rw [if_pos hw] at h
      cases b with
      | true =>
        rw [if_pos rfl] at h
        rcases ih h with h1 | ⟨h2, h3⟩
        · exact Or.inl h1
        · exact Or.inr ⟨List.mem_cons_of_mem a h2, h3⟩
      | false =>
        rw [if_neg (by simp)] at h
        rcases List.mem_cons.mp h with rfl | h'
        · exact Or.inl rfl
        · rcases ih h' with h1 | ⟨h2, h3⟩
          · exact Or.inl h1
          · exact Or.inr ⟨List.mem_cons_of_mem a h2, h3⟩
    · rw [if_neg hw] at h
      rcases List.mem_cons.mp h with rfl | h'
      · exact Or.inr ⟨List.mem_cons_self c rest, by simpa using hw⟩
      · rcases ih h' with h1 | ⟨h2, h3⟩
        · exact Or.inl h1
        · exact Or.inr ⟨List.mem_cons_of_mem a h2, h3⟩

theorem mem_trimList {l : List Char} {c : Char} (h : c ∈ trimList l) : c ∈ l := by
  unfold trimList at h
  rw [List.mem_reverse] at h
  have h1 : c ∈ (l.dropWhile isJsWhitespace).reverse :=
    (List.dropWhile_sublist _).mem h
  rw [List.mem_reverse] at h1
  exact (List.dropWhile_sublist _).mem h1

theorem head?_dropWhile_not_ws (l : List Char) (c : Char)
    (h : (l.dropWhile isJsWhitespace).head? = some c) : isJsWhitespace c = false := by
  induction l with
  | nil => simp at h
  | cons a rest ih =>
    rw [List.dropWhile_cons] at h
    by_cases hw : isJsWhitespace a = true
    · rw [if_pos hw] at h
      exact ih h
    · rw [if_neg hw] at h
      have : a = c := by simpa using h
      subst this
      simpa using hw

theorem head?_trimList_not_ws (l : List Char) (c : Char)
    (h : (trimList l).head? = some c) : isJsWhitespace c = false := by
  unfold trimList at h
  apply head?_dropWhile_not_ws l c
  set m := l.dropWhile isJsWhitespace with hm
  have hsplit : m = (m.reverse.dropWhile isJsWhitespace).reverse ++
      (m.reverse.takeWhile isJsWhitespace).reverse := by
    conv_lhs => rw [← List.reverse_reverse m]
    conv_lhs =>
      rw [← List.takeWhile_append_dropWhile (p := isJsWhitespace) (l := m.reverse)]
    rw [List.reverse_append]
  rw [hsplit]
  cases hz : (m.reverse.dropWhile isJsWhitespace).reverse with
  | nil => rw [hz] at h; simp at h
  | cons z0 zs =>
    rw [hz] at h
    simpa using h

theorem getLast?_trimList_not_ws (l : List Char) (c : Char)
    (h : (trimList l).getLast? = some c) : isJsWhitespace c = false := by
  unfold trimList at h
  rw [List.getLast?_reverse] at h
  exact head?_dropWhile_not_ws _ c h

theorem trimList_eq_self (l : List Char)
    (hhead : ∀ c, l.head? = some c → isJsWhitespace c = false)
    (hlast : ∀ c, l.getLast? = some c → isJsWhitespace c = false) :
    trimList l = l := by
  have h1 : l.dropWhile isJsWhitespace = l := by
    cases l with
    | nil => rfl
    | cons a rest =>
      rw [List.dropWhile_cons, if_neg (by simp [hhead a rfl])]
  unfold trimList
  rw [h1]
  have h2 : l.reverse.dropWhile isJsWhitespace = l.reverse := by
    cases hr : l.reverse with
    | nil => rfl
    | cons a rest =>
      have ha : l.getLast? = some a := by
        rw [← List.head?_reverse, hr]
        rfl
      rw [List.dropWhile_cons, if_neg (by simp [hlast a ha])]
  rw [h2, List.reverse_reverse]

theorem collapseWsAux_head_true (l : List Char) (c : Char)
    (h : (collapseWsAux true l).head? = some c) : isJsWhitespace c = false := by
  induction l with
  | nil => simp [collapseWsAux] at h
  | cons a rest ih =>
    unfold collapseWsAux at h
    by_cases hw : isJsWhitespace a = true
    · rw [if_pos hw, if_pos rfl] at h
      exact ih h
    · rw [if_neg hw] at h
      have : a = c := by simpa using h
      subst this
      simpa using hw

theorem collapseWsAux_noAdjacent (l : List Char) (b : Bool) :
    noAdjacentWs (collapseWsAux b l) := by
  induction l generalizing b with
  | nil => simp [collapseWsAux, noAdjacentWs]
  | cons a rest ih =>
    unfold collapseWsAux
    by_cases hw : isJsWhitespace a = true
    · rw [if_pos hw]
      cases b with
      | true =>
        rw [if_pos rfl]
        exact ih true
      | false =>
        rw [if_neg (by simp)]
        cases hx : collapseWsAux true rest with
        | nil => simp [noAdjacentWs]
        | cons x xs =>
          have hxw : isJsWhitespace x = false :=
            collapseWsAux_head_true rest x (by rw [hx]; rfl)
          have hrest : noAdjacentWs (x :: xs) := by
            rw [← hx]
            exact ih true
          exact ⟨Or.inr hxw, hrest⟩
    · rw [if_neg hw]
      cases hx : collapseWsAux false rest with
      | nil => simp [noAdjacentWs]
      | cons x xs =>
        have hrest : noAdjacentWs (x :: xs) := by
          rw [← hx]
          exact ih false
        exact ⟨Or.inl (by simpa using hw), hrest⟩

theorem collapseWsAux_ne_nil (l : List Char) (b : Bool) (c : Char) (hc : c ∈ l)
    (hw : isJsWhitespace c = false) : collapseWsAux b l ≠ [] := by
  induction l generalizing b with
  | nil => simp at hc
  | cons a rest ih =>
    unfold collapseWsAux
    by_cases hwa : isJsWhitespace a = true
    · rw [if_pos hwa]
      have hc' : c ∈ rest := by
        rcases List.mem_cons.mp hc with rfl | h'
        · rw [hwa] at hw; cases hw
        · exact h'
      cases b with
      | true =>
        rw [if_pos rfl]
        exact ih true hc'
      | false =>
        rw [if_neg (by simp)]
        simp
    · rw [if_neg hwa]
      simp

theorem getLast?_cons_ne_nil {a : Char} {l : List Char} (h : l ≠ []) :
    (a :: l).getLast? = l.getLast? := by
  cases l with
  | nil => exact absurd rfl h
  | cons b t => exact List.getLast?_cons_cons

theorem mem_of_getLast?_eq_some {l : List Char} {c : Char}
    (h : l.getLast? = some c) : c ∈ l := by
  induction l with
  | nil => simp at h
  | cons a rest ih =>
    cases hr : rest with
    | nil =>
      subst hr
      have : a = c := by simpa using h
      simp [this]
    | cons r rs =>
      subst hr
      rw [List.getLast?_cons_cons] at h
      exact List.mem_cons_of_mem a (ih h)

theorem collapseWsAux_getLast_not_ws (l : List Char) :
    ∀ b, (∀ c, l.getLast? = some c → isJsWhitespace c = false) →
      ∀ d, (collapseWsAux b l).getLast? = some d → isJsWhitespace d = false := by
  induction l with
  | nil =>
    intro b _ d hd
    simp [collapseWsAux] at hd
  | cons a rest ih =>
    intro b hlast d hd
    cases hr : rest with
    | nil =>
      subst hr
      have ha : isJsWhitespace a = false := hlast a (by rfl)
      unfold collapseWsAux at hd
      rw [if_neg (by simp [ha])] at hd
      have : a = d := by simpa [collapseWsAux] using hd
      subst this
      exact ha
    | cons r rs =>
      subst hr
      have hrne : (r :: rs : List Char) ≠ [] := by simp
      have hlast' : ∀ c, (r :: rs).getLast? = some c → isJsWhitespace c = false := by
        intro c hcc
        exact hlast c (by rw [getLast?_cons_ne_nil hrne]; exact hcc)
      obtain ⟨cl, hcl⟩ : ∃ cl, (r :: rs).getLast? = some cl := by
        cases hg : (r :: rs).getLast? with
        | none => simp at hg
        | some cl => exact ⟨cl, rfl⟩
      have hclw : isJsWhitespace cl = false := hlast' cl hcl
      have hclmem : cl ∈ r :: rs := mem_of_getLast?_eq_some hcl
      have hne : ∀ b', collapseWsAux b' (r :: rs) ≠ [] := fun b' =>
        collapseWsAux_ne_nil (r :: rs) b' cl hclmem hclw
      unfold collapseWsAux at hd
      by_cases hwa : isJsWhitespace a = true
      · rw [if_pos hwa] at hd
        cases b with
        | true =>
          rw [if_pos rfl] at hd
          exact ih true hlast' d hd
        | false =>
          rw [if_neg (by simp)] at hd
          rw [getLast?_cons_ne_nil (hne true)] at hd
          exact ih true hlast' d hd
      · rw [if_neg hwa] at hd
        rw [getLast?_cons_ne_nil (hne false)] at hd
        exact ih false hlast' d hd

theorem collapseWs_head_not_ws (l : List Char)
    (hhead : ∀ c, l.head? = some c → isJsWhitespace c = false) :
    ∀ c, (collapseWs l).head? = some c → isJsWhitespace c = false := by
  intro c hc
  cases l with
  | nil => simp [collapseWs, collapseWsAux] at hc
  | cons a rest =>
    have ha : isJsWhitespace a = false := hhead a rfl
    unfold collapseWs collapseWsAux at hc
    rw [if_neg (by simp [ha])] at hc
    have : a = c := by simpa using hc
    subst this
    exact ha

theorem collapseWsAux_fix (l : List Char) (hadj : noAdjacentWs l)
    (hblank : ∀ c ∈ l, isJsWhitespace c = true → c = ' ') :
    collapseWsAux false l = l ∧
      ((∀ c, l.head? = some c → isJsWhitespace c = false) →
        collapseWsAux true l = l) := by
  induction l with
  | nil => exact ⟨rfl, fun _ => rfl⟩
  | cons a rest ih =>
    have hadj' : noAdjacentWs rest := by
      cases rest with
      | nil => trivial
      | cons r rs => exact hadj.2
    have hblank' : ∀ c ∈ rest, isJsWhitespace c = true → c = ' ' :=
      fun c hc hw => hblank c (List.mem_cons_of_mem a hc) hw
    obtain ⟨ihf, iht⟩ := ih hadj' hblank'
    constructor
    · unfold collapseWsAux
      by_cases hwa : isJsWhitespace a = true
      · rw [if_pos hwa, if_neg (by simp)]
        have ha : a = ' ' := hblank a (List.mem_cons_self a rest) hwa
        have hh : ∀ c, rest.head? = some c → isJsWhitespace c = false := by
          intro c hc
          cases rest with
          | nil => simp at hc
          | cons r rs =>
            have : r = c := by simpa using hc
            subst this
            rcases hadj.1 with h1 | h2
            · rw [hwa] at h1; cases h1
            · exact h2
        rw [iht hh, ha]
      · rw [if_neg hwa, ihf]
    · intro hhead
      have ha : isJsWhitespace a = false := hhead a rfl
      unfold collapseWsAux
      rw [if_neg (by simp [ha]), ihf]

/-- C9: text normalization is idempotent —
`normalizeText (normalizeText x) = normalizeText x` for every string. -/
theorem c9_normalizeText_idempotent (x : List Char) :
    normalizeText (normalizeText x) = normalizeText x := by
  have hmem : ∀ c ∈ normalizeText x,
      c = ' ' ∨ (c ∈ trimList (charNormalize x) ∧ isJsWhitespace c = false) := by
    intro c hc
    exact mem_collapseWsAux hc
  have hgood : ∀ c ∈ normalizeText x, GoodChar c := by
    intro c hc
    rcases hmem c hc with rfl | ⟨hm, _⟩
    · decide
    · exact goodChar_of_mem_charNormalize x c (mem_trimList hm)
  have hblank : ∀ c ∈ normalizeText x, isJsWhitespace c = true → c = ' ' := by
    intro c hc hw
    rcases hmem c hc with rfl | ⟨_, hnws⟩
    · rfl
    · rw [hw] at hnws; cases hnws
  have hhead : ∀ c, (normalizeText x).head? = some c → isJsWhitespace c = false := by
    intro c
    exact collapseWs_head_not_ws _ (fun d hd => head?_trimList_not_ws _ d hd) c
  have hlast : ∀ c, (normalizeText x).getLast? = some c → isJsWhitespace c = false := by
    intro c
    exact collapseWsAux_getLast_not_ws _ false
      (fun d hd => getLast?_trimList_not_ws _ d hd) c
  have hadj : noAdjacentWs (normalizeText x) := collapseWsAux_noAdjacent _ false
  calc normalizeText (normalizeText x)
      = collapseWs (trimList (charNormalize (normalizeText x))) := rfl
    _ = collapseWs (trimList (normalizeText x)) := by
        rw [charNormalize_fixed _ hgood]
    _ = collapseWs (normalizeText x) := by
        rw [trimList_eq_self _ hhead hlast]
    _ = normalizeText x := (collapseWsAux_fix _ hadj hblank).1

/-! ## Claim theorems -/

/-- C8: for all strings `a` and `b`, `calculateSimilarity a b` lies in
`[0, 1]`; `calculateSimilarity a a = 1`; the similarity of two empty
strings is `1`; and `calculateSimilarity` is symmetric. -/
theorem c8_similarity_bounds_and_symmetry (a b : List Char) :
    0 ≤ calculateSimilarity a b ∧ calculateSimilarity a b ≤ 1 ∧
    calculateSimilarity a a = 1 ∧ calculateSimilarity (str "") (str "") = 1 ∧
    calculateSimilarity a b = calculateSimilarity b a :=
  ⟨calculateSimilarity_nonneg a b, calculateSimilarity_le_one a b,
    calculateSimilarity_self a, rfl, calculateSimilarity_comm a b⟩

/-- C6: when `correctAnswer` is null, `fuzzyEvaluateAnswer` defers
(returns no result) for every user answer and every variation list,
even when some variation is normalized-equal to the user answer. -/
theorem c6_open_ended_always_defers (userAnswer : List Char) (vars : List (List Char))
    (d : Difficulty) (qt : List Char) :
    fuzzyEvaluateAnswer userAnswer none vars d qt = none := rfl

/-- C5 (amended): when the user answer and the non-null, *non-empty*
correct answer are normalized-equal, the exact-match tier of
`fuzzyEvaluateAnswer` returns a terminal correct result whose score is
100 when `hasCorrectAccents` holds and 98 otherwise, with the accent
flag reported.  (An empty `correctAnswer` is JavaScript-falsy and
defers before this tier — see the counterexample.) -/
theorem c5_exact_match_tier (userAnswer correct : List Char) (vars : List (List Char))
    (d : Difficulty) (qt : List Char) (hcne : correct ≠ [])
    (h : normalizePunctuationSpacing (normalizeText userAnswer) =
      normalizePunctuationSpacing (normalizeText correct)) :
    fuzzyEvaluateAnswer userAnswer (some correct) vars d qt =
      some (primaryExactResult userAnswer correct) ∧
    (primaryExactResult userAnswer correct).isCorrect = true ∧
    (primaryExactResult userAnswer correct).score =
      (if hasCorrectAccents userAnswer correct then 100 else 98) ∧
    (primaryExactResult userAnswer correct).hasCorrectAccents =
      hasCorrectAccents userAnswer correct := by
  refine ⟨?_, rfl, rfl, rfl⟩
  simp only [fuzzyEvaluateAnswer]
  rw [if_neg hcne, if_pos h]

/-- Counterexample to C5 as stated: the empty string is a non-null
`correctAnswer` (TypeScript `string`), and `userAnswer=" "` is
normalized-equal to it, yet the source's truthiness guard
`if (!correctAnswer) return null` makes the evaluator defer instead of
returning the terminal score-100 result the claim asserts. -/
theorem c5_empty_correct_counterexample :
    normalizePunctuationSpacing (normalizeText (str " ")) =
      normalizePunctuationSpacing (normalizeText (str "")) ∧
    hasCorrectAccents (str " ") (str "") = true ∧
    fuzzyEvaluateAnswer (str " ") (some (str "")) [] .beginner (str "translation") =
      none := by
  with_unfolding_all decide

/-- Witness for C5 at the claim's own instance: `userAnswer="cafe"`,
`correctAnswer="café"` gives a terminal correct result with score 98 and
`hasCorrectAccents=false`. -/
theorem c5_exact_match_tier_witness :
    fuzzyEvaluateAnswer (str "cafe") (some (str "café")) [] .beginner (str "translation") =
      some (primaryExactResult (str "cafe") (str "café")) ∧
    (primaryExactResult (str "cafe") (str "café")).isCorrect = true ∧
    (primaryExactResult (str "cafe") (str "café")).score = 98 ∧
    (primaryExactResult (str "cafe") (str "café")).hasCorrectAccents = false := by
  have h := c5_exact_match_tier (str "cafe") (str "café") [] .beginner (str "translation")
    (by decide) (by with_unfolding_all decide)
  exact ⟨h.1, h.2.1, by with_unfolding_all decide, by with_unfolding_all decide⟩

/-- C2: a request with a non-null correct answer that reaches the fuzzy
tier (no exact and no variation match) defers if and only if the
similarity to the correct answer is below the per-difficulty confidence
threshold, which is 0.70 / 0.85 / 0.95 for beginner / intermediate /
advanced. -/
theorem c2_fuzzy_defer_iff_below_threshold (userAnswer correct : List Char)
    (vars : List (List Char)) (d : Difficulty) (qt : List Char)
    (hne : normalizePunctuationSpacing (normalizeText userAnswer) ≠
      normalizePunctuationSpacing (normalizeText correct))
    (hvar : checkVariations userAnswer
      (normalizePunctuationSpacing (normalizeText userAnswer)) 0 vars = none) :
    (fuzzyEvaluateAnswer userAnswer (some correct) vars d qt = none ↔
      calculateSimilarity userAnswer correct < (getFuzzyLogicThreshold d : ℚ) / 100) ∧
    (getFuzzyLogicThreshold Difficulty.beginner : ℚ) / 100 = 70 / 100 ∧
    (getFuzzyLogicThreshold Difficulty.intermediate : ℚ) / 100 = 85 / 100 ∧
    (getFuzzyLogicThreshold Difficulty.advanced : ℚ) / 100 = 95 / 100 := by
  refine ⟨?_, by norm_num [getFuzzyLogicThreshold, FUZZY_LOGIC_THRESHOLDS],
    by norm_num [getFuzzyLogicThreshold, FUZZY_LOGIC_THRESHOLDS],
    by norm_num [getFuzzyLogicThreshold, FUZZY_LOGIC_THRESHOLDS]⟩
  by_cases hce : correct = []
  · subst hce
    rw [show normalizePunctuationSpacing (normalizeText ([] : List Char)) = [] from rfl]
      at hne
    have hl : fuzzyEvaluateAnswer userAnswer (some []) vars d qt = none := by
      simp [fuzzyEvaluateAnswer]
    have hr : calculateSimilarity userAnswer [] <
        (getFuzzyLogicThreshold d : ℚ) / 100 := by
      rw [calculateSimilarity_right_empty userAnswer [] rfl hne]
      exact getFuzzyLogicThreshold_pos d
    exact iff_of_true hl hr
  · simp only [fuzzyEvaluateAnswer]
    rw [if_neg hce, if_neg hne, hvar]
    by_cases hs : calculateSimilarity userAnswer correct <
        (getFuzzyLogicThreshold d : ℚ) / 100
    · rw [if_pos hs]
      simp [hs]
    · rw [if_neg hs]
      simp [hs]

/-- Witness for C2 at a concrete deferring advanced request. -/
theorem c2_fuzzy_defer_iff_below_threshold_witness :
    (fuzzyEvaluateAnswer (str "bonjour") (some (str "je vais bien")) [] .advanced
        (str "translation") = none ↔
      calculateSimilarity (str "bonjour") (str "je vais bien") <
        (getFuzzyLogicThreshold Difficulty.advanced : ℚ) / 100) ∧
    (getFuzzyLogicThreshold Difficulty.beginner : ℚ) / 100 = 70 / 100 ∧
    (getFuzzyLogicThreshold Difficulty.intermediate : ℚ) / 100 = 85 / 100 ∧
    (getFuzzyLogicThreshold Difficulty.advanced : ℚ) / 100 = 95 / 100 :=
  c2_fuzzy_defer_iff_below_threshold (str "bonjour") (str "je vais bien") [] .advanced
    (str "translation") (by with_unfolding_all decide) rfl

/-- C3 (amended): once the fuzzy tier is reached and confidence is met,
the verdict follows the correctness bands applied to the rounded
similarity percent `round(similarity × 100)`: ≥ 95 is correct for every
difficulty, 85–94 is correct exactly for beginners, below 85 is
incorrect; the score is that rounded percent and `correctedAnswer` is
the canonical correct answer. -/
theorem c3_fuzzy_band_verdict (userAnswer correct : List Char)
    (vars : List (List Char)) (d : Difficulty) (qt : List Char)
    (hne : normalizePunctuationSpacing (normalizeText userAnswer) ≠
      normalizePunctuationSpacing (normalizeText correct))
    (hvar : checkVariations userAnswer
      (normalizePunctuationSpacing (normalizeText userAnswer)) 0 vars = none)
    (hconf : (getFuzzyLogicThreshold d : ℚ) / 100 ≤ calculateSimilarity userAnswer correct) :
    fuzzyEvaluateAnswer userAnswer (some correct) vars d qt =
      some (fuzzyBandResult userAnswer correct d) ∧
    (fuzzyBandResult userAnswer correct d).isCorrect =
      (if (95 : ℤ) ≤ jsRound (calculateSimilarity userAnswer correct * 100) then true
       else if (85 : ℤ) ≤ jsRound (calculateSimilarity userAnswer correct * 100) then
         decide (d = Difficulty.beginner)
       else false) ∧
    (fuzzyBandResult userAnswer correct d).score =
      jsRound (calculateSimilarity userAnswer correct * 100) ∧
    (fuzzyBandResult userAnswer correct d).correctedAnswer = some correct := by
  refine ⟨?_, rfl, rfl, rfl⟩
  by_cases hce : correct = []
  · exfalso
    subst hce
    rw [show normalizePunctuationSpacing (normalizeText ([] : List Char)) = [] from rfl]
      at hne
    rw [calculateSimilarity_right_empty userAnswer [] rfl hne] at hconf
    have := getFuzzyLogicThreshold_pos d
    linarith
  · simp only [fuzzyEvaluateAnswer]
    rw [if_neg hce, if_neg hne, hvar]
    simp only [not_lt.mpr hconf, if_false]

/-- Witness for the amended C3 at a concrete beginner request with
similarity 6/7 (rounded percent 86, beginner-pass band). -/
theorem c3_fuzzy_band_verdict_witness :
    fuzzyEvaluateAnswer (str "bonjou") (some (str "bonjour")) [] .beginner
        (str "translation") =
      some (fuzzyBandResult (str "bonjou") (str "bonjour") .beginner) ∧
    (fuzzyBandResult (str "bonjou") (str "bonjour") .beginner).isCorrect =
      (if (95 : ℤ) ≤ jsRound (calculateSimilarity (str "bonjou") (str "bonjour") * 100) then true
       else if (85 : ℤ) ≤ jsRound (calculateSimilarity (str "bonjou") (str "bonjour") * 100) then
         decide (Difficulty.beginner = Difficulty.beginner)
       else false) ∧
    (fuzzyBandResult (str "bonjou") (str "bonjour") .beginner).score =
      jsRound (calculateSimilarity (str "bonjou") (str "bonjour") * 100) ∧
    (fuzzyBandResult (str "bonjou") (str "bonjour") .beginner).correctedAnswer =
      some (str "bonjour") :=
  c3_fuzzy_band_verdict (str "bonjou") (str "bonjour") [] .beginner (str "translation")
    (by with_unfolding_all decide) rfl (by with_unfolding_all decide)

/-- Counterexample to C3 as stated: the strings below have similarity
18/19 ≈ 0.947 — inside the claim's "0.85–0.949, correct only for
beginners" band — yet with difficulty `intermediate` the fuzzy tier
marks the answer correct, because the code applies the bands to the
*rounded* percent `round(18/19 × 100) = 95`. -/
theorem c3_raw_band_counterexample :
    (85 : ℚ) / 100 ≤ calculateSimilarity (str "abcdefghijklmnopqrs")
        (str "abcdefghijklmnopqrt") ∧
    calculateSimilarity (str "abcdefghijklmnopqrs") (str "abcdefghijklmnopqrt") ≤
      (949 : ℚ) / 1000 ∧
    (fuzzyEvaluateAnswer (str "abcdefghijklmnopqrs") (some (str "abcdefghijklmnopqrt"))
        [] .intermediate (str "translation")).map (fun r => r.isCorrect) = some true := by
  with_unfolding_all decide

/-- C4 (amended): with a non-null, *non-empty* correct answer, no
primary exact match, and the first qualifying variation at index `i`
(no earlier variation is normalized-equal or ≥ 0.95-similar),
`fuzzyEvaluateAnswer` returns the result built from that variation
alone — exact matches score 98/96 by accent correctness, similarity
matches score `round(sim×100) − 2` with the variation as
`correctedAnswer` — regardless of any later variations.  (An empty
`correctAnswer` is JavaScript-falsy and defers before the variation
loop — see the counterexample.) -/
theorem c4_variation_first_match_wins (userAnswer correct : List Char)
    (vars : List (List Char)) (d : Difficulty) (qt : List Char) (i : ℕ)
    (hi : i < vars.length) (hcne : correct ≠ [])
    (hne : normalizePunctuationSpacing (normalizeText userAnswer) ≠
      normalizePunctuationSpacing (normalizeText correct))
    (hbefore : ∀ j, j < i → ¬ variationQualifies userAnswer (vars.getD j []))
    (hq : variationQualifies userAnswer (vars.getD i [])) :
    fuzzyEvaluateAnswer userAnswer (some correct) vars d qt =
      some (firstMatchResult userAnswer (vars.getD i []) i) ∧
    (∀ v j, (variationExactResult userAnswer v j).isCorrect = true ∧
      (variationExactResult userAnswer v j).score =
        (if hasCorrectAccents userAnswer v then 98 else 96)) ∧
    (∀ v j, (variationSimilarityResult userAnswer v j).isCorrect = true ∧
      (variationSimilarityResult userAnswer v j).score =
        jsRound (calculateSimilarity userAnswer v * 100) - 2 ∧
      (variationSimilarityResult userAnswer v j).correctedAnswer = some v) := by
  refine ⟨?_, fun v j => ⟨rfl, rfl⟩, fun v j => ⟨rfl, rfl, rfl⟩⟩
  simp only [fuzzyEvaluateAnswer]
  rw [if_neg hcne, if_neg hne]
  have := checkVariations_first_qualifying userAnswer vars 0 i hi hbefore hq
  rw [this]
  simp

/-- Counterexample to C4 as stated: the empty string is a non-null
`correctAnswer`, there is no primary exact match, and the first
variation qualifies (it equals the user answer), yet the source's
truthiness guard `if (!correctAnswer) return null` makes the evaluator
defer before the variation loop instead of returning the variation
result the claim asserts. -/
theorem c4_empty_correct_counterexample :
    variationQualifies (str "salut") ([str "salut"].getD 0 []) ∧
    normalizePunctuationSpacing (normalizeText (str "salut")) ≠
      normalizePunctuationSpacing (normalizeText (str "")) ∧
    fuzzyEvaluateAnswer (str "salut") (some (str "")) [str "salut"] .beginner
      (str "translation") = none := by
  with_unfolding_all decide

/-- Witness for C4: `acceptableVariations=["bonjour","salut"]`,
`userAnswer="salut"`: the first variation does not qualify, the second
matches exactly at index 1. -/
theorem c4_variation_first_match_wins_witness :
    fuzzyEvaluateAnswer (str "salut") (some (str "bonjour soleil"))
        [str "bonjour", str "salut"] .advanced (str "translation") =
      some (firstMatchResult (str "salut")
        ([str "bonjour", str "salut"].getD 1 []) 1) ∧
    (∀ v j, (variationExactResult (str "salut") v j).isCorrect = true ∧
      (variationExactResult (str "salut") v j).score =
        (if hasCorrectAccents (str "salut") v then 98 else 96)) ∧
    (∀ v j, (variationSimilarityResult (str "salut") v j).isCorrect = true ∧
      (variationSimilarityResult (str "salut") v j).score =
        jsRound (calculateSimilarity (str "salut") v * 100) - 2 ∧
      (variationSimilarityResult (str "salut") v j).correctedAnswer = some v) :=
  c4_variation_first_match_wins (str "salut") (str "bonjour soleil")
    [str "bonjour", str "salut"] .advanced (str "translation") 1
    (by with_unfolding_all decide)
    (by decide)
    (by with_unfolding_all decide)
    (fun j hj => by
      have hj0 : j = 0 := by omega
      subst hj0
      with_unfolding_all decide)
    (by with_unfolding_all decide)

/-- C10: every result `fuzzyEvaluateAnswer` resolves locally has a score
between 70 and 100 (never 0), and every locally correct result scores at
least 85. -/
theorem c10_local_score_invariant (userAnswer : List Char)
    (correctAnswer : Option (List Char)) (vars : List (List Char)) (d : Difficulty)
    (qt : List Char) (r : EvaluationResult)
    (h : fuzzyEvaluateAnswer userAnswer correctAnswer vars d qt = some r) :
    70 ≤ r.score ∧ r.score ≤ 100 ∧ (r.isCorrect = true → 85 ≤ r.score) := by
  match correctAnswer with
  | none => simp [fuzzyEvaluateAnswer] at h
  | some correct =>
    simp only [fuzzyEvaluateAnswer] at h
    by_cases hce : correct = []
    · rw [if_pos hce] at h
      exact absurd h (by simp)
    · rw [if_neg hce] at h
      by_cases hex : normalizePunctuationSpacing (normalizeText userAnswer) =
          normalizePunctuationSpacing (normalizeText correct)
      · rw [if_pos hex] at h
        have hr : r = primaryExactResult userAnswer correct := by
          injection h with h
          exact h.symm
        subst hr
        rw [primaryExactResult_score, primaryExactResult_isCorrect]
        by_cases ha : hasCorrectAccents userAnswer correct
        · rw [if_pos ha]
          exact ⟨by norm_num, by norm_num, fun _ => by norm_num⟩
        · rw [if_neg ha]
          exact ⟨by norm_num, by norm_num, fun _ => by norm_num⟩
      · rw [if_neg hex] at h
        cases hcv : checkVariations userAnswer
            (normalizePunctuationSpacing (normalizeText userAnswer)) 0 vars with
        | some result =>
          rw [hcv] at h
          have hr : r = result := by
            injection h with h
            exact h.symm
          subst hr
          exact checkVariations_score_invariant userAnswer _ 0 vars r hcv
        | none =>
          rw [hcv] at h
          by_cases hs : calculateSimilarity userAnswer correct <
              (getFuzzyLogicThreshold d : ℚ) / 100
          · rw [if_pos hs] at h
            exact absurd h (by simp)
          · rw [if_neg hs] at h
            have hr : r = fuzzyBandResult userAnswer correct d := by
              injection h with h
              exact h.symm
            subst hr
            push_neg at hs
            have hthr : (70 : ℚ) / 100 ≤ (getFuzzyLogicThreshold d : ℚ) / 100 := by
              cases d <;> norm_num [getFuzzyLogicThreshold, FUZZY_LOGIC_THRESHOLDS]
            have hlo : (70 : ℤ) ≤ jsRound (calculateSimilarity userAnswer correct * 100) :=
              le_jsRound_sim (le_trans hthr hs)
            have hhi : jsRound (calculateSimilarity userAnswer correct * 100) ≤ 100 :=
              jsRound_sim_le_100 (calculateSimilarity_le_one userAnswer correct)
            rw [fuzzyBandResult_score, fuzzyBandResult_isCorrect]
            refine ⟨hlo, hhi, ?_⟩
            by_cases h95 : (95 : ℤ) ≤ jsRound (calculateSimilarity userAnswer correct * 100)
            · intro _
              omega
            · rw [if_neg h95]
              by_cases h85 : (85 : ℤ) ≤ jsRound (calculateSimilarity userAnswer correct * 100)
              · intro _
                omega
              · rw [if_neg h85]
                intro hfalse
                exact absurd hfalse (by simp)

/-- Witness for C10 at a concrete locally resolved result. -/
theorem c10_local_score_invariant_witness :
    70 ≤ (primaryExactResult (str "cafe") (str "café")).score ∧
    (primaryExactResult (str "cafe") (str "café")).score ≤ 100 ∧
    ((primaryExactResult (str "cafe") (str "café")).isCorrect = true →
      85 ≤ (primaryExactResult (str "cafe") (str "café")).score) :=
  c10_local_score_invariant (str "cafe") (some (str "café")) [] .beginner
    (str "translation") (primaryExactResult (str "cafe") (str "café"))
    (by with_unfolding_all decide)

/-- C1 (amended): every failure of the Claude semantic-fallback call
(transport failure, timeout, unparseable response) yields, without
throwing, the deterministic result `isCorrect=false, score=50,
hasCorrectAccents=false`; separately, the client-side wrapper
`evaluateWritingAnswer` maps a failed API round trip to the
deterministic result `isCorrect=false, score=0,
hasCorrectAccents=false`. -/
theorem c1_fallback_failure_results :
    evaluateWithClaude none = (claudeFailureEvaluation, none) ∧
    claudeFailureEvaluation.isCorrect = false ∧
    claudeFailureEvaluation.score = 50 ∧
    claudeFailureEvaluation.hasCorrectAccents = false ∧
    evaluateWritingAnswer none = clientFailureEvaluation ∧
    clientFailureEvaluation.isCorrect = false ∧
    clientFailureEvaluation.score = 0 ∧
    clientFailureEvaluation.hasCorrectAccents = false :=
  ⟨rfl, rfl, rfl, rfl, rfl, rfl, rfl, rfl⟩

/-- Counterexample to C1 as stated: when the semantic-fallback (Claude)
call fails, `evaluateWithClaude` returns a result whose score is 50,
not 0. -/
theorem c1_fallback_failure_score_counterexample :
    (evaluateWithClaude none).1.isCorrect = false ∧
    (evaluateWithClaude none).1.score = 50 ∧
    ¬ (evaluateWithClaude none).1.score = 0 :=
  ⟨rfl, rfl, by decide⟩

/-- C7 (code bug in the route's exact-match tier): the claim's pair
normalizes identically and `hasCorrectAccents` accepts it; but the API
route's own tier-2 accent check (`route.ts` line 113) compares
`trim().toLowerCase()` without whitespace collapsing or
punctuation-spacing normalization, so for `userAnswer="Ça va  ?"`
against `correctAnswer="Ça va ?"` — a pure whitespace-run-before-`?`
difference — the route attributes an accent error (score 98,
`hasCorrectAccents=false`) even though `hasCorrectAccents` itself
returns true on the pair. -/
theorem c7_route_accent_check_bug :
    normalizePunctuationSpacing (normalizeText (str "Comment ça va ?")) =
      normalizePunctuationSpacing (normalizeText (str "Comment ça va?")) ∧
    hasCorrectAccents (str "Comment ça va ?") (str "Comment ça va?") = true ∧
    hasCorrectAccents (str "Ça va  ?") (str "Ça va ?") = true ∧
    normalizePunctuationSpacing (normalizeText (str "Ça va  ?")) =
      normalizePunctuationSpacing (normalizeText (str "Ça va ?")) ∧
    postLocalEvaluate (str "Ça va  ?") (some (str "Ça va ?")) [] .beginner
        (str "translation") =
      some (routeExactResult (str "Ça va  ?") (str "Ça va ?")) ∧
    (routeExactResult (str "Ça va  ?") (str "Ça va ?")).hasCorrectAccents = false ∧
    (routeExactResult (str "Ça va  ?") (str "Ça va ?")).score = 98 := by
  with_unfolding_all decide

end WritingEval
